import Mathlib

/-!
Verification of the pngspeak codec (`.pngspeak/__main__.py`).

The Python source is shallowly embedded: byte strings become `List Nat`
(each element `< 256` where relevant), integers become `Nat`/`Int`,
optional CLI arguments become `Option` values, and calls that depend on
the operating system (file existence, `open`, OS randomness) are
parameterised by an explicit environment.  The external libraries the
code delegates to (`zlib.compress`/pypng defiltering) form an exact
inverse pair on the row-packed pixel buffer, so the container is
modelled at the level of the chunk contents the program itself builds:
IHDR dimensions, the iTXt `license` text record, and the raw RGBA
pixel buffer placed in IDAT.
-/

namespace Pngspeak

/-! ## Byte-level helpers (int.to_bytes / int.from_bytes / bytes.hex / bytes.fromhex) -/

/-- Bit length of a natural number (Python `int.bit_length()`), via fuel so
that it reduces by `decide`/`rfl`. -/
def bitLenAux : Nat → Nat → Nat
  | 0, _ => 0
  | fuel + 1, n => if n = 0 then 0 else bitLenAux fuel (n / 2) + 1

/-- Python `n.bit_length()`. -/
def bitLen (n : Nat) : Nat := bitLenAux n n

/-- Python `(v.bit_length() + 7) // 8 or 1`: the minimal number of bytes of
the big-endian encoding, at least one byte even for 0. -/
def minByteLen (v : Nat) : Nat :=
  if (bitLen v + 7) / 8 = 0 then 1 else (bitLen v + 7) / 8

/-- Python `v.to_bytes(k, 'big')` (truncating to `k` bytes like the modular
arithmetic does; the program only calls it with `k = minByteLen v`). -/
def toBytesBE : Nat → Nat → List Nat
  | 0, _ => []
  | k + 1, v => toBytesBE k (v / 256) ++ [v % 256]

/-- Python `int.from_bytes(bs, 'big')`. -/
def fromBytesBE (bs : List Nat) : Nat :=
  bs.foldl (fun a b => a * 256 + b) 0

/-- Lowercase hex digit for a nibble, as produced by Python `bytes.hex()`. -/
def hexDig (n : Nat) : Char :=
  match n with
  | 0 => '0' | 1 => '1' | 2 => '2' | 3 => '3'
  | 4 => '4' | 5 => '5' | 6 => '6' | 7 => '7'
  | 8 => '8' | 9 => '9' | 10 => 'a' | 11 => 'b'
  | 12 => 'c' | 13 => 'd' | 14 => 'e' | _ => 'f'

/-- Python `bytes([b]).hex()`: two lowercase hex characters. -/
def byteToHex (b : Nat) : List Char := [hexDig (b / 16), hexDig (b % 16)]

/-- Python `bs.hex()`. -/
def bytesToHex (bs : List Nat) : List Char := bs.flatMap byteToHex

/-- Value of a hex character, as accepted by Python `bytes.fromhex`. -/
def hexVal (c : Char) : Option Nat :=
  if '0' ≤ c ∧ c ≤ '9' then some (c.toNat - '0'.toNat)
  else if 'a' ≤ c ∧ c ≤ 'f' then some (c.toNat - 'a'.toNat + 10)
  else if 'A' ≤ c ∧ c ≤ 'F' then some (c.toNat - 'A'.toNat + 10)
  else none

/-- ASCII whitespace, as skipped between byte pairs by `bytes.fromhex` and
stripped from the ends by `str.strip()`. -/
def isPySpace (c : Char) : Bool :=
  c = ' ' ∨ c = '\t' ∨ c = '\n' ∨ c = '\r' ∨ c = '\x0b' ∨ c = '\x0c'

/-- Python `bytes.fromhex`: whitespace may separate byte pairs, each byte is
two contiguous hex digits; anything else raises `ValueError` (`none`). -/
def fromhex : List Char → Option (List Nat)
  | [] => some []
  | c :: cs =>
    if isPySpace c then fromhex cs
    else
      match cs with
      | [] => none
      | d :: rest =>
        match hexVal c, hexVal d with
        | some x, some y => (fromhex rest).map (fun bs => (16 * x + y) :: bs)
        | _, _ => none

/-- Trailing-whitespace removal (the right half of Python `str.strip()`). -/
def dropTrailing (p : Char → Bool) : List Char → List Char
  | [] => []
  | c :: cs =>
    let r := dropTrailing p cs
    if r = [] then (if p c then [] else [c]) else c :: r

/-- Python `str.strip()` restricted to the whitespace the program can meet. -/
def pyStrip (cs : List Char) : List Char :=
  dropTrailing isPySpace (cs.dropWhile isPySpace)

/-- Python `s.split(' ', 1)` when it yields two parts: the text before the
first space and everything after it; `none` when there is no space. -/
def splitFirstSpace : List Char → Option (List Char × List Char)
  | [] => none
  | c :: cs =>
    if c = ' ' then some ([], cs)
    else
      match splitFirstSpace cs with
      | some (a, b) => some (c :: a, b)
      | none => none

/-! ## MetadataCodec -/

/-- Minimal big-endian hex text of a natural number, as built at
`__main__.py:136-139`: `v.to_bytes((v.bit_length()+7)//8 or 1,'big').hex()`. -/
def natHexStr (v : Nat) : List Char := bytesToHex (toBytesBE (minByteLen v) v)

/-- The iTXt `license` text content written by `encode`
(`__main__.py:136-141`): `f"{hexN} {hexL}"` where `hexL` is the minimal
big-endian hex of the header length and `hexN` that of `len(hexL)`. -/
def metadataEncode (L : Nat) : List Char :=
  natHexStr (natHexStr L).length ++ ' ' :: natHexStr L

/-- The header-length parse performed by `decode` (`__main__.py:177-193`):
strip, split on the first space into two parts, hex-decode the second part
and read it big-endian.  The first part is only used for a warning; any
failure yields `none` (length unknown). -/
def metadataDecodeLen (text : List Char) : Option Nat :=
  match splitFirstSpace (pyStrip text) with
  | none => none
  | some (_, p2) =>
    match fromhex p2 with
    | none => none
    | some bs => some (fromBytesBE bs)

/-! ## Round-trip lemmas for the metadata codec -/

theorem bitLenAux_lt (fuel : Nat) : ∀ n, n ≤ fuel → n < 2 ^ bitLenAux fuel n := by
  induction fuel with
  | zero => intro n h; interval_cases n; simp [bitLenAux]
  | succ fuel ih =>
    intro n h
    by_cases h0 : n = 0
    · simp [bitLenAux, h0]
    · have hdiv : n / 2 ≤ fuel := by omega
      have := ih (n / 2) hdiv
      simp only [bitLenAux, h0, if_false]
      have h2 : n < 2 * 2 ^ bitLenAux fuel (n / 2) := by omega
      calc n < 2 * 2 ^ bitLenAux fuel (n / 2) := h2
        _ = 2 ^ (bitLenAux fuel (n / 2) + 1) := by ring

theorem lt_two_pow_bitLen (n : Nat) : n < 2 ^ bitLen n := bitLenAux_lt n n le_rfl

theorem lt_pow_minByteLen (v : Nat) : v < 256 ^ minByteLen v := by
  unfold minByteLen
  by_cases hk : (bitLen v + 7) / 8 = 0
  · have hb : bitLen v = 0 := by omega
    have := lt_two_pow_bitLen v
    rw [hb] at this
    simpa [hk] using by omega
  · simp only [hk, if_false]
    have h1 : v < 2 ^ bitLen v := lt_two_pow_bitLen v
    have h2 : bitLen v ≤ 8 * ((bitLen v + 7) / 8) := by
      have := Nat.div_add_mod (bitLen v + 7) 8
      have := Nat.mod_lt (bitLen v + 7) (by omega : 0 < 8)
      omega
    calc v < 2 ^ bitLen v := h1
      _ ≤ 2 ^ (8 * ((bitLen v + 7) / 8)) := Nat.pow_le_pow_right (by omega) h2
      _ = 256 ^ ((bitLen v + 7) / 8) := by
        rw [Nat.pow_mul]

theorem toBytesBE_bytes_lt (k : Nat) : ∀ v, ∀ b ∈ toBytesBE k v, b < 256 := by
  induction k with
  | zero => intro v b hb; simp [toBytesBE] at hb
  | succ k ih =>
    intro v b hb
    simp only [toBytesBE, List.mem_append, List.mem_singleton] at hb
    rcases hb with hb | hb
    · exact ih _ b hb
    · subst hb; exact Nat.mod_lt _ (by omega)

theorem fromBytesBE_toBytesBE (k : Nat) : ∀ v, v < 256 ^ k →
    fromBytesBE (toBytesBE k v) = v := by
  induction k with
  | zero => intro v hv; interval_cases v; rfl
  | succ k ih =>
    intro v hv
    have hdiv : v / 256 < 256 ^ k := by
      rw [Nat.div_lt_iff_lt_mul (by omega : 0 < 256)]
      calc v < 256 ^ (k + 1) := hv
        _ = 256 ^ k * 256 := by ring
    simp only [toBytesBE, fromBytesBE, List.foldl_append, List.foldl_cons, List.foldl_nil]
    have := ih (v / 256) hdiv
    simp only [fromBytesBE] at this
    rw [this]
    omega

theorem hexVal_hexDig : ∀ m, m < 16 → hexVal (hexDig m) = some m := by decide

theorem hexDig_not_space : ∀ m, m < 16 → isPySpace (hexDig m) = false := by decide

theorem hexDig_ne_space : ∀ m, m < 16 → hexDig m ≠ ' ' := by decide

theorem fromhex_bytesToHex (bs : List Nat) (h : ∀ b ∈ bs, b < 256) :
    fromhex (bytesToHex bs) = some bs := by
  induction bs with
  | nil => rfl
  | cons b bs ih =>
    have hb : b < 256 := h b (by simp)
    have h1 : b / 16 < 16 := by omega
    have h2 : b % 16 < 16 := by omega
    have htail : fromhex (bytesToHex bs) = some bs := ih (fun x hx => h x (by simp [hx]))
    simp only [bytesToHex, List.flatMap_cons, byteToHex, List.cons_append, List.nil_append]
    show fromhex (hexDig (b / 16) :: hexDig (b % 16) :: bs.flatMap byteToHex) = some (b :: bs)
    unfold fromhex
    rw [hexDig_not_space _ h1]
    simp only [Bool.false_eq_true, if_false]
    rw [hexVal_hexDig _ h1, hexVal_hexDig _ h2]
    simp only [bytesToHex] at htail
    rw [htail]
    show some ((16 * (b / 16) + b % 16) :: bs) = some (b :: bs)
    rw [Nat.div_add_mod]

theorem bytesToHex_chars (bs : List Nat) (h : ∀ b ∈ bs, b < 256) :
    ∀ c ∈ bytesToHex bs, isPySpace c = false ∧ c ≠ ' ' := by
  intro c hc
  simp only [bytesToHex, List.mem_flatMap] at hc
  obtain ⟨b, hb, hcb⟩ := hc
  have hblt : b < 256 := h b hb
  simp only [byteToHex, List.mem_cons, List.mem_singleton] at hcb
  rcases hcb with rfl | hcb
  · exact ⟨hexDig_not_space _ (by omega), hexDig_ne_space _ (by omega)⟩
  · rcases hcb with rfl | hfalse
    · exact ⟨hexDig_not_space _ (by omega), hexDig_ne_space _ (by omega)⟩
    · simp at hfalse

theorem natHexStr_length (v : Nat) : (natHexStr v).length = 2 * minByteLen v := by
  have hlen : ∀ k v, (toBytesBE k v).length = k := by
    intro k
    induction k with
    | zero => intro v; rfl
    | succ k ih => intro v; simp [toBytesBE, ih]
  have : ∀ bs : List Nat, (bytesToHex bs).length = 2 * bs.length := by
    intro bs
    induction bs with
    | nil => rfl
    | cons b bs ih => simp [bytesToHex, byteToHex, List.flatMap_cons] at ih ⊢; omega
  simp [natHexStr, this, hlen]

theorem minByteLen_pos (v : Nat) : 0 < minByteLen v := by
  unfold minByteLen
  split <;> omega

theorem natHexStr_ne_nil (v : Nat) : natHexStr v ≠ [] := by
  have h1 := natHexStr_length v
  have h2 := minByteLen_pos v
  intro hnil
  rw [hnil] at h1
  simp at h1
  omega

theorem natHexStr_chars (v : Nat) :
    ∀ c ∈ natHexStr v, isPySpace c = false ∧ c ≠ ' ' :=
  bytesToHex_chars _ (toBytesBE_bytes_lt _ _)

theorem dropWhile_no_head (p : Char → Bool) (c : Char) (cs : List Char)
    (h : p c = false) : (c :: cs).dropWhile p = c :: cs := by
  simp [List.dropWhile, h]

theorem dropTrailing_concat (p : Char → Bool) (x : Char) (hx : p x = false) :
    ∀ A : List Char, dropTrailing p (A ++ [x]) = A ++ [x] := by
  intro A
  induction A with
  | nil => simp [dropTrailing, hx]
  | cons a A ih =>
    have hne : A ++ [x] ≠ [] := by simp
    rw [List.cons_append]
    show dropTrailing p (a :: (A ++ [x])) = a :: (A ++ [x])
    unfold dropTrailing
    simp only [ih, hne, if_false]

theorem splitFirstSpace_append (B : List Char) :
    ∀ A : List Char, (∀ c ∈ A, c ≠ ' ') →
    splitFirstSpace (A ++ ' ' :: B) = some (A, B) := by
  intro A
  induction A with
  | nil => simp [splitFirstSpace]
  | cons a A ih =>
    intro h
    have ha : a ≠ ' ' := h a (by simp)
    rw [List.cons_append]
    show splitFirstSpace (a :: (A ++ ' ' :: B)) = some (a :: A, B)
    unfold splitFirstSpace
    rw [ih (fun c hc => h c (by simp [hc]))]
    simp [ha]

theorem pyStrip_noop (A B : List Char) (hA : A ≠ []) (hB : B ≠ [])
    (hAc : ∀ c ∈ A, isPySpace c = false)
    (hBc : ∀ c ∈ B, isPySpace c = false) :
    pyStrip (A ++ ' ' :: B) = A ++ ' ' :: B := by
  have h1 : (A ++ ' ' :: B).dropWhile isPySpace = A ++ ' ' :: B := by
    obtain ⟨c, cs, hcs⟩ := List.exists_cons_of_ne_nil hA
    rw [hcs, List.cons_append]
    exact dropWhile_no_head _ _ _ (hAc c (by rw [hcs]; simp))
  have h2 : dropTrailing isPySpace (A ++ ' ' :: B) = A ++ ' ' :: B := by
    rcases List.eq_nil_or_concat B with rfl | ⟨D, d, rfl⟩
    · exact absurd rfl hB
    · rw [List.concat_eq_append]
      have hrw : A ++ ' ' :: (D ++ [d]) = (A ++ ' ' :: D) ++ [d] := by simp
      rw [hrw]
      exact dropTrailing_concat _ _ (hBc d (by simp)) _
  unfold pyStrip
  rw [h1, h2]

/-- Core round trip of the metadata codec: the decode-side parse of the
encode-side text recovers the header length exactly, for every `L : ℕ`. -/
theorem metadataDecode_metadataEncode (L : Nat) :
    metadataDecodeLen (metadataEncode L) = some L := by
  have hsplit : splitFirstSpace (pyStrip (metadataEncode L))
      = some (natHexStr (natHexStr L).length, natHexStr L) := by
    unfold metadataEncode
    rw [pyStrip_noop _ _ (natHexStr_ne_nil _) (natHexStr_ne_nil _)
      (fun c hc => (natHexStr_chars _ c hc).1) (fun c hc => (natHexStr_chars _ c hc).1)]
    exact splitFirstSpace_append _ _ (fun c hc => (natHexStr_chars _ c hc).2)
  have hfh : fromhex (natHexStr L) = some (toBytesBE (minByteLen L) L) :=
    fromhex_bytesToHex _ (toBytesBE_bytes_lt _ _)
  unfold metadataDecodeLen
  rw [hsplit]
  simp only [hfh]
  rw [fromBytesBE_toBytesBE _ _ (lt_pow_minByteLen L)]

/-! ## GridDimensionSolver, PayloadFramer, Scaler (`__main__.py:37-127`) -/

/-- `pixels_needed = (len + 4 - 1) // 4; if pixels_needed == 0: pixels_needed = 1`
(`__main__.py:92-94`). -/
def pixelsNeeded (L : Nat) : Nat :=
  if (L + 3) / 4 = 0 then 1 else (L + 3) / 4

/-- The clamp `if g <= 0: g = 1` applied to a CLI-supplied dimension. -/
def clampDim (x : Int) : Nat := if x ≤ 0 then 1 else x.toNat

/-- Grid dimension solving (`__main__.py:96-115`).  Python computes
`int(pixels_needed**0.5)` with a float square root; it agrees with the
integer square root on every payload size the 53-bit mantissa represents
exactly, and is modelled as `Nat.sqrt`. -/
def gridSolve (p : Nat) (cliW cliH : Option Int) : Nat × Nat :=
  match cliW, cliH with
  | none, none =>
    let W0 := Nat.sqrt p
    let W := if W0 = 0 then 1 else W0
    let H0 := (p + W - 1) / W
    (W, if H0 = 0 then 1 else H0)
  | none, some hc =>
    let H := clampDim hc
    let W0 := (p + H - 1) / H
    (if W0 = 0 then 1 else W0, H)
  | some wc, none =>
    let W := clampDim wc
    let H0 := (p + W - 1) / W
    (W, if H0 = 0 then 1 else H0)
  | some wc, some hc => (clampDim wc, clampDim hc)

/-- Grid-fit pass of the framer (`__main__.py:120-125`): pad with bytes from
the randomness source, or truncate, to exactly the grid capacity. -/
def frameToCapacity (d : List Nat) (cap : Nat) (fill : Nat → List Nat) : List Nat :=
  if d.length < cap then d ++ fill (cap - d.length)
  else if cap < d.length then d.take cap
  else d

/-- One RGBA pixel of a row-major grid (`arr[src_y, src_x]`). -/
def pixelAt (data : List Nat) (width y x : Nat) : List Nat :=
  (data.drop ((y * width + x) * 4)).take 4

/-- Nearest-neighbour resample `upscale_image` (`__main__.py:37-48`):
destination pixel `(x, y)` copies source pixel
`(int(x*width/uw), int(y*height/uh))`. -/
def upscale_image (data : List Nat) (width height uw uh : Nat) : List Nat :=
  (List.range uh).flatMap fun y =>
    (List.range uw).flatMap fun x =>
      pixelAt data width (y * height / uh) (x * width / uw)

/-! ## Orchestrator: encode (`__main__.py:50-162`) -/

/-- Length-normalization pass (`__main__.py:72-88`): with `--length l` the
payload is padded from the randomness source or truncated to exactly `l`
bytes; otherwise it is unchanged. -/
def dataToEmbed (payload : List Nat) (cliLen : Option Nat) (fill : Nat → List Nat) :
    List Nat :=
  match cliLen with
  | some l =>
    if payload.length < l then payload ++ fill (l - payload.length)
    else if l < payload.length then payload.take l
    else payload
  | none => payload

/-- `length_for_header` (`__main__.py:74-88`): the `--length` value when
given, otherwise the actual input length. -/
def lengthForHeader (payload : List Nat) (cliLen : Option Nat) : Nat :=
  match cliLen with
  | some l => l
  | none => payload.length

/-- Python truthiness of an optional numeric CLI argument (`uw if uw else
grid_w`, `if uw and uh:`): absent or zero is falsy. -/
def truthyN : Option Nat → Bool
  | some n => n != 0
  | none => false

/-- `uw if uw else grid_w`. -/
def displayDim : Option Nat → Nat → Nat
  | some v, g => if v ≠ 0 then v else g
  | none, g => g

/-- The chunk contents of the container written by `encode`: IHDR
dimensions, the iTXt `license` text, and the raw RGBA buffer that the
scanline packer and `zlib.compress` place into IDAT (row packing with
filter byte 0 plus DEFLATE is exactly undone by the standards-compliant
reader on decode, so the buffer itself is the faithful interface). -/
structure EncodedPNG where
  ihdrW : Nat
  ihdrH : Nat
  itxt : Option (List Char)
  idatW : Nat
  idatH : Nat
  pixelData : List Nat

/-- `encode` (`__main__.py:50-162`), for a fully buffered input.  The
randomness source is abstracted as `fill`; negative `--length` /
`--width` / `--height` slice-semantics corner cases are outside the
claims and `--length` is modelled as a byte count. -/
def encode (payload : List Nat) (cli_width cli_height : Option Int)
    (cli_length : Option Nat) (fill : Nat → List Nat) (uw uh : Option Nat) :
    EncodedPNG :=
  let d := dataToEmbed payload cli_length fill
  let WH := gridSolve (pixelsNeeded d.length) cli_width cli_height
  let final_pixel_data := frameToCapacity d (WH.1 * WH.2 * 4) fill
  if truthyN uw && truthyN uh then
    { ihdrW := displayDim uw WH.1, ihdrH := displayDim uh WH.2,
      itxt := some (metadataEncode (lengthForHeader payload cli_length)),
      idatW := uw.getD 0, idatH := uh.getD 0,
      pixelData := upscale_image final_pixel_data WH.1 WH.2 (uw.getD 0) (uh.getD 0) }
  else
    { ihdrW := displayDim uw WH.1, ihdrH := displayDim uh WH.2,
      itxt := some (metadataEncode (lengthForHeader payload cli_length)),
      idatW := WH.1, idatH := WH.2,
      pixelData := final_pixel_data }

/-! ## Orchestrator: decode (`__main__.py:164-261`) -/

/-- `final_length_target = length_override if length_override is not None
else decoded_length_from_header` (`__main__.py:240`). -/
def finalLengthTarget (itxt : Option (List Char)) (ovr : Option Nat) : Option Nat :=
  match ovr with
  | some t => some t
  | none => itxt.bind metadataDecodeLen

/-- `decode` (`__main__.py:164-261`) on the parsed container: `w`, `h` and
`imgData` are what the PNG reader returns (`r.read_flat()`), `itxt` the
text of the first `license` iTXt record if any.  The trailing
`width height uw uh` parameters mirror the Python signature; the body
never reads them. -/
def decode (w h : Nat) (imgData : List Nat) (itxt : Option (List Char))
    (length_override : Option Nat) (fill : Nat → List Nat)
    (width height uw uh : Option Int) : List Nat :=
  match finalLengthTarget itxt length_override with
  | some t =>
    if t ≤ w * h * 4 then imgData.take t
    else imgData.take (w * h * 4) ++ fill (t - w * h * 4)
  | none => imgData.take (w * h * 4)

/-- All-zero randomness source, used to instantiate `fill` at concrete
inputs. -/
def zeroFill (n : Nat) : List Nat := List.replicate n 0

/-! ## Arithmetic about the grid solver -/

theorem le_ceil_mul (p W : Nat) (hW : 0 < W) : p ≤ (p + W - 1) / W * W := by
  rcases Nat.eq_zero_or_pos p with rfl | hp
  · simp
  · by_contra hcon
    push_neg at hcon
    rw [Nat.mul_comm] at hcon
    have h1 := Nat.div_add_mod (p + W - 1) W
    have h2 : (p + W - 1) % W < W := Nat.mod_lt _ hW
    generalize hT : W * ((p + W - 1) / W) = T at h1 hcon
    generalize hM : (p + W - 1) % W = M at h1 h2
    omega

theorem ceil_pos (p W : Nat) (hp : 0 < p) (hW : 0 < W) : 0 < (p + W - 1) / W := by
  have h1 : (1 : Nat) ≤ (p + W - 1) / W := by
    rw [Nat.le_div_iff_mul_le hW]
    omega
  omega

theorem gridSolve_spec (p : Nat) (cliW cliH : Option Int) (hp : 0 < p)
    (h : cliW = none ∨ cliH = none) :
    0 < (gridSolve p cliW cliH).1 ∧ 0 < (gridSolve p cliW cliH).2 ∧
      p ≤ (gridSolve p cliW cliH).1 * (gridSolve p cliW cliH).2 := by
  have hclamp : ∀ x : Int, 0 < clampDim x := by
    intro x
    unfold clampDim
    split
    · omega
    · rename_i hx
      omega
  match cliW, cliH with
  | none, none =>
    simp only [gridSolve]
    set W := if Nat.sqrt p = 0 then 1 else Nat.sqrt p with hW
    have hWpos : 0 < W := by rw [hW]; split <;> [omega; (rename_i h0; omega)]
    have hH0 : 0 < (p + W - 1) / W := ceil_pos p W hp hWpos
    refine ⟨hWpos, ?_, ?_⟩
    · split <;> omega
    · rw [if_neg (by omega)]
      calc p ≤ (p + W - 1) / W * W := le_ceil_mul p W hWpos
        _ = W * ((p + W - 1) / W) := Nat.mul_comm _ _
  | none, some hc =>
    simp only [gridSolve]
    have hH : 0 < clampDim hc := hclamp hc
    have hW0 : 0 < (p + clampDim hc - 1) / clampDim hc := ceil_pos p _ hp hH
    refine ⟨by split <;> omega, hH, ?_⟩
    rw [if_neg (by omega)]
    exact le_ceil_mul p _ hH
  | some wc, none =>
    simp only [gridSolve]
    have hW : 0 < clampDim wc := hclamp wc
    have hH0 : 0 < (p + clampDim wc - 1) / clampDim wc := ceil_pos p _ hp hW
    refine ⟨hW, by split <;> omega, ?_⟩
    rw [if_neg (by omega)]
    calc p ≤ (p + clampDim wc - 1) / clampDim wc * clampDim wc :=
          le_ceil_mul p _ hW
      _ = clampDim wc * ((p + clampDim wc - 1) / clampDim wc) := Nat.mul_comm _ _
  | some wc, some hc =>
    rcases h with h | h <;> exact absurd h (by simp)

theorem pixelsNeeded_pos (L : Nat) : 0 < pixelsNeeded L := by
  unfold pixelsNeeded
  split <;> omega

theorem length_le_pixelsNeeded_mul (L : Nat) : L ≤ pixelsNeeded L * 4 := by
  unfold pixelsNeeded
  have := le_ceil_mul L 4 (by omega)
  split <;> omega

theorem frameToCapacity_take (d : List Nat) (cap : Nat) (fill : Nat → List Nat)
    (hle : d.length ≤ cap) :
    (frameToCapacity d cap fill).take d.length = d := by
  unfold frameToCapacity
  split
  · exact List.take_left d _
  · rw [if_neg (by omega)]
    exact List.take_length d

/-- `encode` with no display resolution, spelled out (the `if` guard is
definitionally false). -/
theorem encode_no_scale (payload : List Nat) (cliW cliH : Option Int)
    (cliLen : Option Nat) (fill : Nat → List Nat) :
    encode payload cliW cliH cliLen fill none none =
      { ihdrW := (gridSolve (pixelsNeeded (dataToEmbed payload cliLen fill).length) cliW cliH).1,
        ihdrH := (gridSolve (pixelsNeeded (dataToEmbed payload cliLen fill).length) cliW cliH).2,
        itxt := some (metadataEncode (lengthForHeader payload cliLen)),
        idatW := (gridSolve (pixelsNeeded (dataToEmbed payload cliLen fill).length) cliW cliH).1,
        idatH := (gridSolve (pixelsNeeded (dataToEmbed payload cliLen fill).length) cliW cliH).2,
        pixelData := frameToCapacity (dataToEmbed payload cliLen fill)
          ((gridSolve (pixelsNeeded (dataToEmbed payload cliLen fill).length) cliW cliH).1 *
           (gridSolve (pixelsNeeded (dataToEmbed payload cliLen fill).length) cliW cliH).2 * 4)
          fill } := rfl

/-! ## Claim theorems -/

/-- C1.  For every payload `P`, encoding `P` with no explicit length, no
explicit grid width/height and no display-resolution scaling, then decoding
the resulting container with no overrides, returns exactly `P`: the header
records `len(P)`, grid padding sits after the payload, and decode emits
only the first `len(P)` bytes. -/
theorem decode_encode_roundtrip (payload : List Nat) (fill fill2 : Nat → List Nat) :
    decode (encode payload none none none fill none none).ihdrW
      (encode payload none none none fill none none).ihdrH
      (encode payload none none none fill none none).pixelData
      (encode payload none none none fill none none).itxt
      none fill2 none none none none = payload := by
  rw [encode_no_scale]
  have hd : dataToEmbed payload none fill = payload := rfl
  have hl : lengthForHeader payload none = payload.length := rfl
  rw [hd, hl]
  set W := (gridSolve (pixelsNeeded payload.length) none none).1 with hWdef
  set H := (gridSolve (pixelsNeeded payload.length) none none).2 with hHdef
  have hsolve := gridSolve_spec (pixelsNeeded payload.length) none none
    (pixelsNeeded_pos _) (Or.inl rfl)
  have hcap : payload.length ≤ W * H * 4 := by
    have h1 := length_le_pixelsNeeded_mul payload.length
    have h2 : pixelsNeeded payload.length * 4 ≤ W * H * 4 :=
      Nat.mul_le_mul_right 4 hsolve.2.2
    omega
  show decode W H (frameToCapacity payload (W * H * 4) fill)
      (some (metadataEncode payload.length)) none fill2 none none none none = payload
  have htarget : finalLengthTarget (some (metadataEncode payload.length)) none
      = some payload.length := by
    unfold finalLengthTarget
    simp [metadataDecode_metadataEncode]
  have hred : decode W H (frameToCapacity payload (W * H * 4) fill)
      (some (metadataEncode payload.length)) none fill2 none none none none =
      if payload.length ≤ W * H * 4
      then (frameToCapacity payload (W * H * 4) fill).take payload.length
      else (frameToCapacity payload (W * H * 4) fill).take (W * H * 4)
        ++ fill2 (payload.length - W * H * 4) := by
    unfold decode
    rw [htarget]
  rw [hred, if_pos hcap]
  exact frameToCapacity_take payload _ fill hcap

/-- C6.  For every payload length (including 0), when at most one dimension
is supplied explicitly the grid solver returns `W ≥ 1` and `H ≥ 1`, and
`W*H*4 ≥ pixels_needed*4` with `pixels_needed = max(1, ceil(L/4))`. -/
theorem grid_solver_capacity (L : Nat) (cliW cliH : Option Int)
    (h : cliW = none ∨ cliH = none) :
    1 ≤ (gridSolve (pixelsNeeded L) cliW cliH).1 ∧
    1 ≤ (gridSolve (pixelsNeeded L) cliW cliH).2 ∧
    pixelsNeeded L * 4 ≤
      (gridSolve (pixelsNeeded L) cliW cliH).1 *
        (gridSolve (pixelsNeeded L) cliW cliH).2 * 4 := by
  have hs := gridSolve_spec (pixelsNeeded L) cliW cliH (pixelsNeeded_pos L) h
  exact ⟨hs.1, hs.2.1, Nat.mul_le_mul_right 4 hs.2.2⟩

/-- Witness for C6 at `L = 10` with only a height supplied. -/
theorem grid_solver_capacity_witness :
    1 ≤ (gridSolve (pixelsNeeded 10) none (some 3)).1 ∧
    1 ≤ (gridSolve (pixelsNeeded 10) none (some 3)).2 ∧
    pixelsNeeded 10 * 4 ≤
      (gridSolve (pixelsNeeded 10) none (some 3)).1 *
        (gridSolve (pixelsNeeded 10) none (some 3)).2 * 4 :=
  grid_solver_capacity 10 none (some 3) (Or.inl rfl)

/-- C7.  On decode with a known target length `t`: if `t ≤ capacity`
(`w*h*4`) exactly the first `t` embedded bytes are emitted; otherwise all
`capacity` bytes are emitted followed by exactly `t - capacity` bytes from
the randomness source. -/
theorem decode_known_target (w h : Nat) (img : List Nat) (itxt : Option (List Char))
    (ovr : Option Nat) (fill : Nat → List Nat) (t : Nat)
    (ht : finalLengthTarget itxt ovr = some t)
    (himg : img.length = w * h * 4)
    (hfill : ∀ n, (fill n).length = n) :
    (t ≤ w * h * 4 →
      decode w h img itxt ovr fill none none none none = img.take t ∧
      (decode w h img itxt ovr fill none none none none).length = t) ∧
    (w * h * 4 < t →
      decode w h img itxt ovr fill none none none none
        = img ++ fill (t - w * h * 4) ∧
      (decode w h img itxt ovr fill none none none none).length
        = w * h * 4 + (t - w * h * 4)) := by
  have htake : img.take (w * h * 4) = img := by
    rw [← himg]
    exact List.take_length img
  have hred : decode w h img itxt ovr fill none none none none =
      if t ≤ w * h * 4 then img.take t
      else img.take (w * h * 4) ++ fill (t - w * h * 4) := by
    unfold decode
    rw [ht]
  constructor
  · intro hle
    rw [hred, if_pos hle]
    refine ⟨rfl, ?_⟩
    rw [List.length_take]
    omega
  · intro hgt
    rw [hred, if_neg (by omega), htake]
    refine ⟨rfl, ?_⟩
    rw [List.length_append, hfill]
    omega

/-- Witness for C7: a 1×1 image, 4 embedded bytes, override target 2. -/
theorem decode_known_target_witness :
    ((2 ≤ 1 * 1 * 4 →
      decode 1 1 [9, 8, 7, 6] none (some 2) zeroFill none none none none
        = [9, 8, 7, 6].take 2 ∧
      (decode 1 1 [9, 8, 7, 6] none (some 2) zeroFill none none none none).length = 2) ∧
    (1 * 1 * 4 < 2 →
      decode 1 1 [9, 8, 7, 6] none (some 2) zeroFill none none none none
        = [9, 8, 7, 6] ++ zeroFill (2 - 1 * 1 * 4) ∧
      (decode 1 1 [9, 8, 7, 6] none (some 2) zeroFill none none none none).length
        = 1 * 1 * 4 + (2 - 1 * 1 * 4))) :=
  decode_known_target 1 1 [9, 8, 7, 6] none (some 2) zeroFill 2 (by rfl) (by rfl)
    (fun n => by simp [zeroFill])

/-- C8.  A hex-decode failure in the metadata record or an absent record is
non-fatal: the header length is unknown and decode emits exactly the full
embedded capacity `w*h*4` with no padding appended. -/
theorem decode_unparseable_metadata (w h : Nat) (img : List Nat)
    (itxt : Option (List Char)) (fill : Nat → List Nat)
    (hmeta : itxt = none ∨ ∃ text, itxt = some text ∧ metadataDecodeLen text = none)
    (himg : img.length = w * h * 4) :
    decode w h img itxt none fill none none none none = img ∧
    (decode w h img itxt none fill none none none none).length = w * h * 4 := by
  have htarget : finalLengthTarget itxt none = none := by
    unfold finalLengthTarget
    rcases hmeta with rfl | ⟨text, rfl, hfail⟩
    · rfl
    · simp [hfail]
  unfold decode
  rw [htarget]
  have htake : img.take (w * h * 4) = img := by
    rw [← himg]
    exact List.take_length img
  rw [htake]
  exact ⟨rfl, himg⟩

/-- Witness for C8: a `license` record whose second part is not valid hex. -/
theorem decode_unparseable_metadata_witness :
    decode 1 1 [1, 2, 3, 4] (some ['z', 'z', ' ', 'q', 'q']) none zeroFill
      none none none none = [1, 2, 3, 4] ∧
    (decode 1 1 [1, 2, 3, 4] (some ['z', 'z', ' ', 'q', 'q']) none zeroFill
      none none none none).length = 1 * 1 * 4 :=
  decode_unparseable_metadata 1 1 [1, 2, 3, 4] (some ['z', 'z', ' ', 'q', 'q'])
    zeroFill (Or.inr ⟨['z', 'z', ' ', 'q', 'q'], rfl, by decide⟩) (by rfl)

/-- C2 counterexample.  A 2×1 grid of two distinct pixels is encoded with
display resolution 4×1.  Decoding while supplying the matching expected
display dimensions (4, 1) and expected grid (2, 1) does NOT invert the
resample: the code emits the first 8 bytes of the upscaled buffer
(pixel 0 twice), not the Scaler inversion to the 2×1 target (pixel 0 then
pixel 1). -/
theorem decode_no_inversion_cex :
    decode (encode [1, 1, 1, 1, 2, 2, 2, 2] (some 2) none none zeroFill
        (some 4) (some 1)).ihdrW
      (encode [1, 1, 1, 1, 2, 2, 2, 2] (some 2) none none zeroFill
        (some 4) (some 1)).ihdrH
      (encode [1, 1, 1, 1, 2, 2, 2, 2] (some 2) none none zeroFill
        (some 4) (some 1)).pixelData
      (encode [1, 1, 1, 1, 2, 2, 2, 2] (some 2) none none zeroFill
        (some 4) (some 1)).itxt
      none zeroFill (some 2) (some 1) (some 4) (some 1) ≠
    (upscale_image (encode [1, 1, 1, 1, 2, 2, 2, 2] (some 2) none none zeroFill
        (some 4) (some 1)).pixelData 4 1 2 1).take 8 := by decide

/-- C2 amended.  `decode` accepts the expected-dimension parameters but
ignores them entirely: its output never depends on them, so no resample
inversion is performed. -/
theorem decode_ignores_expected_dims (w h : Nat) (img : List Nat)
    (itxt : Option (List Char)) (ovr : Option Nat) (fill : Nat → List Nat)
    (a b c d a' b' c' d' : Option Int) :
    decode w h img itxt ovr fill a b c d = decode w h img itxt ovr fill a' b' c' d' := rfl

/-- C10.  With exactly one display dimension supplied (nonzero) at encode,
no resampling happens and pixels are packed at the storage grid, but IHDR
records the supplied display value in place of the corresponding grid
value — so declared and packed dimensions disagree whenever they differ. -/
theorem encode_single_display_dim (payload : List Nat) (fill : Nat → List Nat)
    (v : Nat) (hv : v ≠ 0) :
    ((encode payload none none none fill (some v) none).ihdrW = v ∧
     (encode payload none none none fill (some v) none).ihdrH
       = (gridSolve (pixelsNeeded payload.length) none none).2 ∧
     (encode payload none none none fill (some v) none).idatW
       = (gridSolve (pixelsNeeded payload.length) none none).1 ∧
     (encode payload none none none fill (some v) none).idatH
       = (gridSolve (pixelsNeeded payload.length) none none).2 ∧
     (encode payload none none none fill (some v) none).pixelData
       = frameToCapacity payload
           ((gridSolve (pixelsNeeded payload.length) none none).1 *
            (gridSolve (pixelsNeeded payload.length) none none).2 * 4) fill ∧
     (v ≠ (gridSolve (pixelsNeeded payload.length) none none).1 →
       (encode payload none none none fill (some v) none).ihdrW
         ≠ (encode payload none none none fill (some v) none).idatW)) ∧
    ((encode payload none none none fill none (some v)).ihdrW
       = (gridSolve (pixelsNeeded payload.length) none none).1 ∧
     (encode payload none none none fill none (some v)).ihdrH = v ∧
     (encode payload none none none fill none (some v)).idatW
       = (gridSolve (pixelsNeeded payload.length) none none).1 ∧
     (encode payload none none none fill none (some v)).idatH
       = (gridSolve (pixelsNeeded payload.length) none none).2 ∧
     (encode payload none none none fill none (some v)).pixelData
       = frameToCapacity payload
           ((gridSolve (pixelsNeeded payload.length) none none).1 *
            (gridSolve (pixelsNeeded payload.length) none none).2 * 4) fill ∧
     (v ≠ (gridSolve (pixelsNeeded payload.length) none none).2 →
       (encode payload none none none fill none (some v)).ihdrH
         ≠ (encode payload none none none fill none (some v)).idatH)) := by
  have hguard1 : (truthyN (some v) && truthyN none) = false := by
    simp [truthyN]
  have hguard2 : (truthyN none && truthyN (some v)) = false := by
    simp [truthyN]
  constructor
  · have henc : encode payload none none none fill (some v) none =
        { ihdrW := displayDim (some v) (gridSolve (pixelsNeeded payload.length) none none).1,
          ihdrH := (gridSolve (pixelsNeeded payload.length) none none).2,
          itxt := some (metadataEncode payload.length),
          idatW := (gridSolve (pixelsNeeded payload.length) none none).1,
          idatH := (gridSolve (pixelsNeeded payload.length) none none).2,
          pixelData := frameToCapacity payload
            ((gridSolve (pixelsNeeded payload.length) none none).1 *
             (gridSolve (pixelsNeeded payload.length) none none).2 * 4) fill } := by
      unfold encode
      rw [hguard1]
      rfl
    rw [henc]
    have hdd : displayDim (some v) (gridSolve (pixelsNeeded payload.length) none none).1
        = v := by simp [displayDim, hv]
    refine ⟨hdd, rfl, rfl, rfl, rfl, ?_⟩
    intro hne
    simpa [hdd] using hne
  · have henc : encode payload none none none fill none (some v) =
        { ihdrW := (gridSolve (pixelsNeeded payload.length) none none).1,
          ihdrH := displayDim (some v) (gridSolve (pixelsNeeded payload.length) none none).2,
          itxt := some (metadataEncode payload.length),
          idatW := (gridSolve (pixelsNeeded payload.length) none none).1,
          idatH := (gridSolve (pixelsNeeded payload.length) none none).2,
          pixelData := frameToCapacity payload
            ((gridSolve (pixelsNeeded payload.length) none none).1 *
             (gridSolve (pixelsNeeded payload.length) none none).2 * 4) fill } := by
      unfold encode
      rw [hguard2]
      rfl
    rw [henc]
    have hdd : displayDim (some v) (gridSolve (pixelsNeeded payload.length) none none).2
        = v := by simp [displayDim, hv]
    refine ⟨rfl, hdd, rfl, rfl, rfl, ?_⟩
    intro hne
    simpa [hdd] using hne

/-- Witness for C10 at `payload = [1,2,3,4,5]`, display value `7`. -/
theorem encode_single_display_dim_witness :
    (7 : Nat) ≠ 0 ∧
    (((encode [1, 2, 3, 4, 5] none none none zeroFill (some 7) none).ihdrW = 7 ∧
     (encode [1, 2, 3, 4, 5] none none none zeroFill (some 7) none).ihdrH
       = (gridSolve (pixelsNeeded ([1, 2, 3, 4, 5] : List Nat).length) none none).2 ∧
     (encode [1, 2, 3, 4, 5] none none none zeroFill (some 7) none).idatW
       = (gridSolve (pixelsNeeded ([1, 2, 3, 4, 5] : List Nat).length) none none).1 ∧
     (encode [1, 2, 3, 4, 5] none none none zeroFill (some 7) none).idatH
       = (gridSolve (pixelsNeeded ([1, 2, 3, 4, 5] : List Nat).length) none none).2 ∧
     (encode [1, 2, 3, 4, 5] none none none zeroFill (some 7) none).pixelData
       = frameToCapacity [1, 2, 3, 4, 5]
           ((gridSolve (pixelsNeeded ([1, 2, 3, 4, 5] : List Nat).length) none none).1 *
            (gridSolve (pixelsNeeded ([1, 2, 3, 4, 5] : List Nat).length) none none).2 * 4)
           zeroFill ∧
     (7 ≠ (gridSolve (pixelsNeeded ([1, 2, 3, 4, 5] : List Nat).length) none none).1 →
       (encode [1, 2, 3, 4, 5] none none none zeroFill (some 7) none).ihdrW
         ≠ (encode [1, 2, 3, 4, 5] none none none zeroFill (some 7) none).idatW)) ∧
    ((encode [1, 2, 3, 4, 5] none none none zeroFill none (some 7)).ihdrW
       = (gridSolve (pixelsNeeded ([1, 2, 3, 4, 5] : List Nat).length) none none).1 ∧
     (encode [1, 2, 3, 4, 5] none none none zeroFill none (some 7)).ihdrH = 7 ∧
     (encode [1, 2, 3, 4, 5] none none none zeroFill none (some 7)).idatW
       = (gridSolve (pixelsNeeded ([1, 2, 3, 4, 5] : List Nat).length) none none).1 ∧
     (encode [1, 2, 3, 4, 5] none none none zeroFill none (some 7)).idatH
       = (gridSolve (pixelsNeeded ([1, 2, 3, 4, 5] : List Nat).length) none none).2 ∧
     (encode [1, 2, 3, 4, 5] none none none zeroFill none (some 7)).pixelData
       = frameToCapacity [1, 2, 3, 4, 5]
           ((gridSolve (pixelsNeeded ([1, 2, 3, 4, 5] : List Nat).length) none none).1 *
            (gridSolve (pixelsNeeded ([1, 2, 3, 4, 5] : List Nat).length) none none).2 * 4)
           zeroFill ∧
     (7 ≠ (gridSolve (pixelsNeeded ([1, 2, 3, 4, 5] : List Nat).length) none none).2 →
       (encode [1, 2, 3, 4, 5] none none none zeroFill none (some 7)).ihdrH
         ≠ (encode [1, 2, 3, 4, 5] none none none zeroFill none (some 7)).idatH))) :=
  ⟨by decide, encode_single_display_dim [1, 2, 3, 4, 5] zeroFill 7 (by decide)⟩

/-! ## ChunkCodec: `write_chunk` and CRC-32 (`__main__.py:30-35`)

`zlib.crc32` is the standard reflected CRC-32 (polynomial `0xEDB88320`,
initial value `0xFFFFFFFF`, final xor `0xFFFFFFFF`), embedded here bit by
bit over `Nat`. -/

def crcPoly : Nat := 0xEDB88320

/-- One LFSR step of the reflected CRC-32. -/
def crcStepBit (c : Nat) : Nat :=
  if c % 2 = 1 then crcPoly ^^^ (c / 2) else c / 2

/-- Explicit inverse of `crcStepBit` on 32-bit states. -/
def crcUnstepBit (d : Nat) : Nat :=
  if 2 ^ 31 ≤ d then 2 * (d ^^^ crcPoly) + 1 else 2 * d

def crcStepN : Nat → Nat → Nat
  | 0, c => c
  | k + 1, c => crcStepN k (crcStepBit c)

def crcUnstepN : Nat → Nat → Nat
  | 0, c => c
  | k + 1, c => crcUnstepBit (crcUnstepN k c)

/-- Per-byte CRC update: xor the byte into the state, then eight bit steps. -/
def crc32Update (c b : Nat) : Nat := crcStepN 8 (c ^^^ b)

/-- `zlib.crc32(data) & 0xffffffff`. -/
def crc32 (data : List Nat) : Nat :=
  (data.foldl crc32Update 0xFFFFFFFF) ^^^ 0xFFFFFFFF

/-- `struct.pack(">I", v)` as four big-endian bytes. -/
def u32be (v : Nat) : List Nat :=
  [v / 16777216 % 256, v / 65536 % 256, v / 256 % 256, v % 256]

/-- `write_chunk` (`__main__.py:30-35`): u32 big-endian length, type tag,
data, then u32 big-endian CRC-32 over type‖data. -/
def write_chunk (chunk_type data : List Nat) : List Nat :=
  u32be data.length ++ chunk_type ++ data ++ u32be (crc32 (chunk_type ++ data))

theorem crcPoly_xor_high (a : Nat) (ha : a < 2 ^ 31) : 2 ^ 31 ≤ crcPoly ^^^ a := by
  have hbit : (crcPoly ^^^ a).testBit 31 = true := by
    rw [Nat.testBit_xor]
    rw [Nat.testBit_lt_two_pow ha]
    decide
  exact Nat.testBit_implies_ge hbit

theorem crcStepBit_lt (c : Nat) (hc : c < 2 ^ 32) : crcStepBit c < 2 ^ 32 := by
  unfold crcStepBit
  split
  · exact Nat.xor_lt_two_pow (by decide) (by omega)
  · omega

theorem crcUnstepBit_crcStepBit (c : Nat) (hc : c < 2 ^ 32) :
    crcUnstepBit (crcStepBit c) = c := by
  unfold crcStepBit crcUnstepBit
  have hhalf : c / 2 < 2 ^ 31 := by omega
  by_cases hodd : c % 2 = 1
  · rw [if_pos hodd]
    rw [if_pos (crcPoly_xor_high _ hhalf)]
    rw [Nat.xor_comm crcPoly (c / 2), Nat.xor_cancel_right]
    omega
  · rw [if_neg hodd]
    rw [if_neg (by omega)]
    omega

theorem crcStepN_lt (k : Nat) : ∀ c, c < 2 ^ 32 → crcStepN k c < 2 ^ 32 := by
  induction k with
  | zero => intro c hc; exact hc
  | succ k ih => intro c hc; exact ih _ (crcStepBit_lt c hc)

theorem crcUnstepN_crcStepN (k : Nat) : ∀ c, c < 2 ^ 32 →
    crcUnstepN k (crcStepN k c) = c := by
  induction k with
  | zero => intro c hc; rfl
  | succ k ih =>
    intro c hc
    show crcUnstepBit (crcUnstepN k (crcStepN k (crcStepBit c))) = c
    rw [ih _ (crcStepBit_lt c hc)]
    exact crcUnstepBit_crcStepBit c hc

theorem crc32Update_lt (c b : Nat) (hc : c < 2 ^ 32) (hb : b < 2 ^ 32) :
    crc32Update c b < 2 ^ 32 :=
  crcStepN_lt 8 _ (Nat.xor_lt_two_pow hc hb)

theorem crc32Update_state_inj (c1 c2 b : Nat) (h1 : c1 < 2 ^ 32) (h2 : c2 < 2 ^ 32)
    (hb : b < 2 ^ 32) (hne : c1 ≠ c2) : crc32Update c1 b ≠ crc32Update c2 b := by
  intro heq
  have e1 := crcUnstepN_crcStepN 8 (c1 ^^^ b) (Nat.xor_lt_two_pow h1 hb)
  have e2 := crcUnstepN_crcStepN 8 (c2 ^^^ b) (Nat.xor_lt_two_pow h2 hb)
  unfold crc32Update at heq
  rw [heq, e2] at e1
  exact hne (Nat.xor_left_injective e1).symm

theorem crc32Update_byte_inj (c b1 b2 : Nat) (hc : c < 2 ^ 32) (h1 : b1 < 2 ^ 32)
    (h2 : b2 < 2 ^ 32) (hne : b1 ≠ b2) : crc32Update c b1 ≠ crc32Update c b2 := by
  intro heq
  have e1 := crcUnstepN_crcStepN 8 (c ^^^ b1) (Nat.xor_lt_two_pow hc h1)
  have e2 := crcUnstepN_crcStepN 8 (c ^^^ b2) (Nat.xor_lt_two_pow hc h2)
  unfold crc32Update at heq
  rw [heq, e2] at e1
  exact hne (Nat.xor_right_injective e1).symm

theorem crcFold_lt (l : List Nat) : ∀ c, c < 2 ^ 32 → (∀ b ∈ l, b < 2 ^ 32) →
    l.foldl crc32Update c < 2 ^ 32 := by
  induction l with
  | nil => intro c hc _; exact hc
  | cons b l ih =>
    intro c hc hl
    exact ih _ (crc32Update_lt c b hc (hl b (by simp)))
      (fun x hx => hl x (by simp [hx]))

theorem crcFold_ne (l : List Nat) : ∀ c1 c2, c1 < 2 ^ 32 → c2 < 2 ^ 32 →
    (∀ b ∈ l, b < 2 ^ 32) → c1 ≠ c2 →
    l.foldl crc32Update c1 ≠ l.foldl crc32Update c2 := by
  induction l with
  | nil => intro c1 c2 _ _ _ hne; exact hne
  | cons b l ih =>
    intro c1 c2 h1 h2 hl hne
    have hb : b < 2 ^ 32 := hl b (by simp)
    exact ih _ _ (crc32Update_lt c1 b h1 hb) (crc32Update_lt c2 b h2 hb)
      (fun x hx => hl x (by simp [hx]))
      (crc32Update_state_inj c1 c2 b h1 h2 hb hne)

theorem crc32_single_byte_ne (pre suf : List Nat) (b1 b2 : Nat)
    (hpre : ∀ x ∈ pre, x < 2 ^ 32) (hsuf : ∀ x ∈ suf, x < 2 ^ 32)
    (h1 : b1 < 2 ^ 32) (h2 : b2 < 2 ^ 32) (hne : b1 ≠ b2) :
    crc32 (pre ++ b1 :: suf) ≠ crc32 (pre ++ b2 :: suf) := by
  intro heq
  unfold crc32 at heq
  have hfold := Nat.xor_left_injective heq
  rw [List.foldl_append, List.foldl_append, List.foldl_cons, List.foldl_cons] at hfold
  have hc : pre.foldl crc32Update 0xFFFFFFFF < 2 ^ 32 :=
    crcFold_lt pre 0xFFFFFFFF (by decide) hpre
  exact crcFold_ne suf _ _
    (crc32Update_lt _ b1 hc h1) (crc32Update_lt _ b2 hc h2) hsuf
    (crc32Update_byte_inj _ b1 b2 hc h1 h2 hne) hfold

theorem crc32_lt (l : List Nat) (hl : ∀ b ∈ l, b < 2 ^ 32) : crc32 l < 2 ^ 32 :=
  Nat.xor_lt_two_pow (crcFold_lt l 0xFFFFFFFF (by decide) hl) (by decide)

theorem fromBytesBE_u32be (v : Nat) : fromBytesBE (u32be v) = v % 2 ^ 32 := by
  unfold u32be fromBytesBE
  simp only [List.foldl_cons, List.foldl_nil]
  omega

theorem u32be_inj (a b : Nat) (ha : a < 2 ^ 32) (hb : b < 2 ^ 32)
    (hne : a ≠ b) : u32be a ≠ u32be b := by
  intro heq
  have h1 := congrArg fromBytesBE heq
  rw [fromBytesBE_u32be, fromBytesBE_u32be] at h1
  rw [Nat.mod_eq_of_lt ha, Nat.mod_eq_of_lt hb] at h1
  exact hne h1

/-- C5.  `write_chunk` emits the u32 big-endian length of the data, the
type tag, the data, then the u32 big-endian CRC-32 of type‖data; the
checksum field therefore matches CRC-32(type‖data), and changing any one
data byte changes the CRC and with it the emitted checksum field. -/
theorem write_chunk_crc (chunk_type data : List Nat) (i : Nat) (b2 : Nat)
    (hi : i < data.length) (hb2 : b2 < 256)
    (htype : ∀ x ∈ chunk_type, x < 256) (hdata : ∀ x ∈ data, x < 256)
    (hne : data.get ⟨i, hi⟩ ≠ b2) :
    write_chunk chunk_type data =
      u32be data.length ++ chunk_type ++ data ++ u32be (crc32 (chunk_type ++ data)) ∧
    crc32 (chunk_type ++ data.set i b2) ≠ crc32 (chunk_type ++ data) ∧
    u32be (crc32 (chunk_type ++ data.set i b2)) ≠
      u32be (crc32 (chunk_type ++ data)) := by
  have hsplit : chunk_type ++ data =
      (chunk_type ++ data.take i) ++ data.get ⟨i, hi⟩ :: data.drop (i + 1) := by
    rw [List.append_assoc]
    congr 1
    rw [List.get_eq_getElem]
    rw [List.getElem_cons_drop data i hi]
    exact (List.take_append_drop i data).symm
  have hset : chunk_type ++ data.set i b2 =
      (chunk_type ++ data.take i) ++ b2 :: data.drop (i + 1) := by
    rw [List.append_assoc]
    congr 1
    exact List.set_eq_take_cons_drop b2 hi
  have hbounds256 : ∀ x ∈ chunk_type ++ data.take i, x < 2 ^ 32 := by
    intro x hx
    rcases List.mem_append.mp hx with hx | hx
    · have := htype x hx; omega
    · have := hdata x (List.mem_of_mem_take hx); omega
  have hsufb : ∀ x ∈ data.drop (i + 1), x < 2 ^ 32 := by
    intro x hx
    have := hdata x (List.mem_of_mem_drop hx)
    omega
  have hib : data.get ⟨i, hi⟩ < 2 ^ 32 := by
    have := hdata _ (List.get_mem data i hi)
    omega
  have hcrcne : crc32 (chunk_type ++ data.set i b2) ≠ crc32 (chunk_type ++ data) := by
    rw [hsplit, hset]
    exact crc32_single_byte_ne _ _ b2 (data.get ⟨i, hi⟩) hbounds256 hsufb
      (by omega) hib (fun h => hne h.symm)
  refine ⟨rfl, hcrcne, ?_⟩
  apply u32be_inj
  · apply crc32_lt
    intro x hx
    rcases List.mem_append.mp hx with hx | hx
    · have := htype x hx; omega
    · rcases List.mem_or_eq_of_mem_set hx with hx | hx
      · have := hdata x hx; omega
      · omega
  · apply crc32_lt
    intro x hx
    rcases List.mem_append.mp hx with hx | hx
    · have := htype x hx; omega
    · have := hdata x hx; omega
  · exact hcrcne

/-- Witness for C5: the IEND tag with data `[0]`, flipping byte 0 to 1. -/
theorem write_chunk_crc_witness :
    (([0] : List Nat).get ⟨0, by decide⟩ ≠ 1) ∧
    (write_chunk [73, 69, 78, 68] [0] =
      u32be ([0] : List Nat).length ++ [73, 69, 78, 68] ++ [0] ++
        u32be (crc32 ([73, 69, 78, 68] ++ [0])) ∧
    crc32 ([73, 69, 78, 68] ++ ([0] : List Nat).set 0 1) ≠
      crc32 ([73, 69, 78, 68] ++ [0]) ∧
    u32be (crc32 ([73, 69, 78, 68] ++ ([0] : List Nat).set 0 1)) ≠
      u32be (crc32 ([73, 69, 78, 68] ++ [0]))) :=
  ⟨by decide,
   write_chunk_crc [73, 69, 78, 68] [0] 0 1 (by decide) (by decide)
     (by decide) (by decide) (by decide)⟩

/-! ## RandomnessSource (`__main__.py:5-28`) -/

/-- UTF-8 encoding of one character (Python `str.encode('utf-8')`). -/
def utf8Bytes (c : Char) : List Nat :=
  if c.toNat < 128 then [c.toNat]
  else if c.toNat < 2048 then
    [192 + c.toNat / 64, 128 + c.toNat % 64]
  else if c.toNat < 65536 then
    [224 + c.toNat / 4096, 128 + c.toNat / 64 % 64, 128 + c.toNat % 64]
  else
    [240 + c.toNat / 262144, 128 + c.toNat / 4096 % 64,
     128 + c.toNat / 64 % 64, 128 + c.toNat % 64]

/-- Python `s.encode('utf-8')` as a byte list. -/
def strBytes (s : String) : List Nat := s.data.flatMap utf8Bytes

/-- `(encoded_bytes * (n // len(encoded_bytes) + 1))[:n]`. -/
def tile (bs : List Nat) (n : Nat) : List Nat :=
  ((List.replicate (n / bs.length + 1) bs).flatten).take n

/-- The operating-system facts `read_bytes_from_source` consults:
`pathlib.Path(p).exists()` and whether `open(p, 'rb')` succeeds. -/
structure Env where
  pathExists : String → Bool
  openOk : String → Bool

/-- `pathlib.Path` normalization relevant here: `Path("")` is `Path(".")`. -/
def pathOf (s : String) : String := if s = "" then "." else s

/-- Outcome of one `read_bytes_from_source` call. -/
inductive FillResult where
  /-- Deterministic bytes computed from the selector string. -/
  | bytes (bs : List Nat)
  /-- `open(path,'rb').read(n)`: up to `n` bytes from the file. -/
  | fileRead (path : String) (n : Nat)
  /-- The selector-absent chain: `/dev/random`, then `os.urandom`, then
  Python's software PRNG. -/
  | sysRandomFull (n : Nat)
  /-- The empty-selector fallback the code intends: `os.urandom`, then the
  software PRNG — no `/dev/random` attempt. -/
  | sysRandomNoDev (n : Nat)
  /-- An uncaught exception escapes the function. -/
  | raisesFileNotFound (path : String)
deriving DecidableEq

/-- `read_bytes_from_source` (`__main__.py:5-28`). -/
def read_bytes_from_source (n : Nat) (rand_source : Option String) (env : Env) :
    FillResult :=
  match rand_source with
  | some s =>
    if env.pathExists (pathOf s) then
      if env.openOk s then FillResult.fileRead s n
      else FillResult.raisesFileNotFound s
    else
      let encoded_bytes := strBytes s
      if encoded_bytes.isEmpty then FillResult.sysRandomNoDev n
      else FillResult.bytes (tile encoded_bytes n)
  | none => FillResult.sysRandomFull n

theorem utf8Bytes_ne_nil (c : Char) : utf8Bytes c ≠ [] := by
  unfold utf8Bytes
  split
  · simp
  · split
    · simp
    · split <;> simp

theorem strBytes_ne_nil (s : String) (hs : s ≠ "") : strBytes s ≠ [] := by
  cases s with
  | mk data =>
    cases data with
    | nil => exact absurd rfl hs
    | cons c cs =>
      unfold strBytes
      intro h
      rw [List.flatMap_cons] at h
      exact utf8Bytes_ne_nil c (List.append_eq_nil.mp h).1

/-- C3 (code bug).  With the empty-string selector, `pathlib.Path("")`
normalizes to `"."`, which exists, so the code reaches `open("", 'rb')`
and an uncaught `FileNotFoundError` escapes; the selector-absent fallback
chain (`/dev/random` → `os.urandom` → software PRNG) is never entered,
even though the code's own comments ("Handle empty string for --rand")
promise it. -/
theorem empty_rand_selector_crashes (env : Env) (n : Nat)
    (hdot : env.pathExists "." = true) (hopen : env.openOk "" = false) :
    read_bytes_from_source n (some "") env = FillResult.raisesFileNotFound "" ∧
    read_bytes_from_source n none env = FillResult.sysRandomFull n ∧
    FillResult.raisesFileNotFound "" ≠ FillResult.sysRandomFull n := by
  refine ⟨?_, rfl, by simp⟩
  simp only [read_bytes_from_source]
  rw [show pathOf "" = "." from rfl, hdot, hopen]
  simp

/-- The real OS facts at the failing input: the working directory exists
and `open("", 'rb')` always fails. -/
def osEnv : Env := { pathExists := fun s => s == ".", openOk := fun _ => false }

/-- Witness for C3 at `n = 1` under `osEnv`. -/
theorem empty_rand_selector_crashes_witness :
    read_bytes_from_source 1 (some "") osEnv = FillResult.raisesFileNotFound "" ∧
    read_bytes_from_source 1 none osEnv = FillResult.sysRandomFull 1 ∧
    FillResult.raisesFileNotFound "" ≠ FillResult.sysRandomFull 1 :=
  empty_rand_selector_crashes osEnv 1 (by decide) (by decide)

/-- C9.  File-over-literal precedence of the randomness selector: a
selector naming an existing openable file is read from the file (not
tiled); a non-empty selector that is not an existing path is UTF-8
encoded and tiled to length; in particular selector `"abc"` with `n = 7`
yields the bytes of `"abcabca"`. -/
theorem rand_source_precedence (env : Env) (f : String) (n : Nat)
    (hf : f ≠ "") (hfex : env.pathExists f = true) (hfopen : env.openOk f = true)
    (habc : env.pathExists "abc" = false) :
    read_bytes_from_source n (some f) env = FillResult.fileRead f n ∧
    FillResult.fileRead f n ≠ FillResult.bytes (tile (strBytes f) n) ∧
    (∀ (s : String) (m : Nat), s ≠ "" → env.pathExists s = false →
      read_bytes_from_source m (some s) env = FillResult.bytes (tile (strBytes s) m)) ∧
    read_bytes_from_source 7 (some "abc") env =
      FillResult.bytes [97, 98, 99, 97, 98, 99, 97] := by
  have hgen : ∀ (s : String) (m : Nat), s ≠ "" → env.pathExists s = false →
      read_bytes_from_source m (some s) env = FillResult.bytes (tile (strBytes s) m) := by
    intro s m hs hex
    obtain ⟨c, rest, hcr⟩ := List.exists_cons_of_ne_nil (strBytes_ne_nil s hs)
    simp only [read_bytes_from_source]
    rw [show pathOf s = s from by unfold pathOf; simp [hs]]
    rw [hex, hcr]
    simp
  refine ⟨?_, by simp, hgen, ?_⟩
  · simp only [read_bytes_from_source]
    rw [show pathOf f = f from by unfold pathOf; simp [hf]]
    rw [hfex, hfopen]
    simp
  · rw [hgen "abc" 7 (by decide) habc]
    decide

/-- A concrete environment for the C9 witness: only `seed.bin` exists. -/
def seedEnv : Env :=
  { pathExists := fun s => s == "seed.bin", openOk := fun s => s == "seed.bin" }

/-- Witness for C9 with `f = "seed.bin"`, `n = 5` under `seedEnv`. -/
theorem rand_source_precedence_witness :
    read_bytes_from_source 5 (some "seed.bin") seedEnv =
      FillResult.fileRead "seed.bin" 5 ∧
    FillResult.fileRead "seed.bin" 5 ≠
      FillResult.bytes (tile (strBytes "seed.bin") 5) ∧
    (∀ (s : String) (m : Nat), s ≠ "" → seedEnv.pathExists s = false →
      read_bytes_from_source m (some s) seedEnv =
        FillResult.bytes (tile (strBytes s) m)) ∧
    read_bytes_from_source 7 (some "abc") seedEnv =
      FillResult.bytes [97, 98, 99, 97, 98, 99, 97] :=
  rand_source_precedence seedEnv "seed.bin" 5 (by decide) (by decide) (by decide)
    (by decide)

/-- C4.  The metadata codec round-trips every header length in
`[0, 2^64 - 1]`: decoding the encoded `"<hexN> <hexL>"` record recovers
`L` exactly (it in fact holds for every natural number, by
`metadataDecode_metadataEncode`). -/
theorem metadata_roundtrip (L : Nat) (hL : L < 2 ^ 64) :
    metadataDecodeLen (metadataEncode L) = some L :=
  metadataDecode_metadataEncode L

/-- Witness for C4 at the top of the claimed range. -/
theorem metadata_roundtrip_witness :
    (2 ^ 64 - 1 : Nat) < 2 ^ 64 ∧
    metadataDecodeLen (metadataEncode (2 ^ 64 - 1)) = some (2 ^ 64 - 1) :=
  ⟨by norm_num, metadata_roundtrip (2 ^ 64 - 1) (by norm_num)⟩

end Pngspeak
